import Mathlib

/-!
Shallow embedding of the endpointo scanner core (Rust) in Lean 4.

Source files modelled:
  src/types.rs          : `EndpointType`, `Endpoint` and its builder methods
  src/parser/patterns.rs: the compiled regex table and `PatternMatcher`
  src/parser/mod.rs     : `Parser::parse_js`, `determine_endpoint_type`,
                          `extract_params`
  src/parser/filters.rs : `EndpointFilter::matches` / `deduplicate`
  src/crawler/client.rs : `HttpClient::get` / `check_robots_txt` (GET results
                          abstracted as an oracle `net`)
  src/crawler/mod.rs    : `Crawler::crawl`, `fetch_html`, `fetch_js`,
                          `extract_scripts`
  src/scanner.rs        : `Scanner::scan_url`, `Scanner::parse_file`

Strings are modelled as `List Char`; Rust byte offsets are recovered through
`Char.utf8Size` where the source indexes by bytes (`find_http_method_near`
slices its ±100-byte window at byte offsets, which panics on a non-boundary;
the model returns `none` exactly where the Rust code panics).

The Rust `regex` crate is modelled by a small total backtracking engine with
leftmost-first alternation and greedy repetition.  Every repetition operator
appearing in the source's patterns ranges over a single character class, so
repetition is embedded as greedy class repetition with backtracking, which
matches the crate's semantics for these patterns.
-/

namespace Endpointo

/-- Character constants written via code points so that quote-like characters
never appear as literal tokens. -/
def bqChar : Char := Char.ofNat 96

def sqChar : Char := Char.ofNat 39

def bslashChar : Char := Char.ofNat 92

def lbraceChar : Char := Char.ofNat 123

def rbraceChar : Char := Char.ofNat 125

def lbrackChar : Char := Char.ofNat 91

def rbrackChar : Char := Char.ofNat 93

/-- Model of the regex class `\s` (whitespace), restricted to the ASCII
whitespace characters that can occur in the inputs considered here. -/
def isWs (c : Char) : Bool :=
  c == ' ' || c == '\t' || c == '\n' || c == '\r' ||
  c == Char.ofNat 11 || c == Char.ofNat 12

/-- Model of the regex class `\w`. -/
def isWordC (c : Char) : Bool := c.isAlphanum || c == '_'

/-- Quote characters trimmed by `trim_matches(|c| c == '"' || c == '\'' || c == '`')`
in patterns.rs, and the regex class `['"]` plus backtick. -/
def isQuote (c : Char) : Bool := c == '"' || c == sqChar || c == bqChar

/-- Class `[^\s"'<>{}|\\^` `\[\]]` of URL_REGEX's absolute/protocol-relative arm. -/
def urlCls1 (c : Char) : Bool :=
  !(isWs c || c == '"' || c == sqChar || c == '<' || c == '>' ||
    c == lbraceChar || c == rbraceChar || c == '|' || c == bslashChar ||
    c == '^' || c == bqChar || c == lbrackChar || c == rbrackChar)

/-- Class `[^\s"'<>]` of URL_REGEX's path-rooted arm. -/
def urlCls2 (c : Char) : Bool :=
  !(isWs c || c == '"' || c == sqChar || c == '<' || c == '>')

/-- Class `[^'"` `\s]` used by the API-signature patterns. -/
def apiCls (c : Char) : Bool :=
  !(c == sqChar || c == '"' || c == bqChar || isWs c)

/-! ## A small total regex engine

Alternation is leftmost-first, repetition is greedy with backtracking;
every repetition in the source's patterns is over a character class. -/

/-- Regular expressions as used by the source's pattern table.  `grp` marks
the single capture group whose text the source reads via `cap.get(1)`. -/
inductive RE : Type where
  | eps : RE
  | lit : List Char → RE
  | chr : (Char → Bool) → RE
  | cat : RE → RE → RE
  | alt : RE → RE → RE
  | starC : (Char → Bool) → RE
  | plusC : (Char → Bool) → RE
  | grp : RE → RE

/-- Greedy backtracking over a class repetition: try consuming `n` characters,
then `n-1`, ..., down to `0`. -/
def tryDrop {α : Type} (s : List Char) (g : Option (List Char))
    (k : List Char → Option (List Char) → Option α) : Nat → Option α
  | 0 => k s g
  | n + 1 =>
    match k (s.drop (n + 1)) g with
    | some r => some r
    | none => tryDrop s g k n

/-- Greedy backtracking for `+`: try consuming `n` characters down to `1`. -/
def tryDropPos {α : Type} (s : List Char) (g : Option (List Char))
    (k : List Char → Option (List Char) → Option α) : Nat → Option α
  | 0 => none
  | n + 1 =>
    match k (s.drop (n + 1)) g with
    | some r => some r
    | none => tryDropPos s g k n

/-- CPS matcher: `matchRE re s g k` matches a prefix of `s` against `re`,
threading the current capture `g`, and calls `k` on the remainder.  The first
success in backtracking order is returned (leftmost-first, greedy). -/
def matchRE {α : Type} : RE → List Char → Option (List Char) →
    (List Char → Option (List Char) → Option α) → Option α
  | .eps, s, g, k => k s g
  | .lit l, s, g, k => if l.isPrefixOf s then k (s.drop l.length) g else none
  | .chr _, [], _, _ => none
  | .chr p, c :: s, g, k => if p c then k s g else none
  | .cat a b, s, g, k => matchRE a s g (fun s1 g1 => matchRE b s1 g1 k)
  | .alt a b, s, g, k =>
    match matchRE a s g k with
    | some r => some r
    | none => matchRE b s g k
  | .starC p, s, g, k => tryDrop s g k ((s.takeWhile p).length)
  | .plusC p, s, g, k =>
    let m := (s.takeWhile p).length
    if m = 0 then none else tryDropPos s g k m
  | .grp a, s, _, k =>
    matchRE a s none (fun s1 _ => k s1 (some (s.take (s.length - s1.length))))

/-- Match `re` against a prefix of `t`; return the match length and capture. -/
def matchHere (re : RE) (t : List Char) : Option (Nat × Option (List Char)) :=
  matchRE re t none (fun rem g => some (t.length - rem.length, g))

/-- Scan for the leftmost match of `re` in `t`: returns the offset, length
and capture of the first match. -/
def scanRE (re : RE) : List Char → Option (Nat × Nat × Option (List Char))
  | [] =>
    match matchHere re [] with
    | some (len, g) => some (0, len, g)
    | none => none
  | c :: rest =>
    match matchHere re (c :: rest) with
    | some (len, g) => some (0, len, g)
    | none => (scanRE re rest).map (fun x => (x.1 + 1, x.2))

/-- Iterate non-overlapping matches, resuming after each match (advancing one
character after an empty match), as `captures_iter` does. -/
def iterRE (re : RE) : Nat → List Char → Nat →
    List (Nat × List Char × Option (List Char))
  | 0, _, _ => []
  | fuel + 1, t, i =>
    match scanRE re t with
    | none => []
    | some (d, len, g) =>
      let step := d + max len 1
      (i + d, (t.drop d).take len, g) :: iterRE re fuel (t.drop step) (i + step)

/-- All matches of `re` in `content` with their character offsets and captures. -/
def capturesIter (re : RE) (content : List Char) :
    List (Nat × List Char × Option (List Char)) :=
  iterRE re (content.length + 1) content 0

/-! ## The source's compiled pattern table (patterns.rs lines 5-35) -/

/-- Optional single character (regex `c?`, greedy). -/
def optC (c : Char) : RE := .alt (.chr (fun x => x == c)) .eps

/-- URL_REGEX: `(?:https?://|//)[^\s"'<>{}|\\^` `\[\]]+|/(?:api|v\d+|graphql)[^\s"'<>]*` -/
def URL_REGEX : RE :=
  .alt
    (.cat
      (.alt (.cat (.lit "http".data) (.cat (optC 's') (.lit "://".data)))
            (.lit "//".data))
      (.plusC urlCls1))
    (.cat (.chr (fun c => c == '/'))
      (.cat (.alt (.lit "api".data)
                  (.alt (.cat (.lit "v".data) (.plusC Char.isDigit))
                        (.lit "graphql".data)))
            (.starC urlCls2)))

/-- Quote class `['"` `]` opening the string-literal API patterns. -/
def quoteRE : RE := .chr isQuote

/-- API pattern 0: `['"` `]/(api|rest|v\d+)/[^'"` `\s]+` (capture group unused). -/
def apiP0 : RE :=
  .cat quoteRE
    (.cat (.chr (fun c => c == '/'))
      (.cat (.alt (.lit "api".data)
                  (.alt (.lit "rest".data)
                        (.cat (.lit "v".data) (.plusC Char.isDigit))))
            (.cat (.chr (fun c => c == '/')) (.plusC apiCls))))

/-- API pattern 1: `['"` `]/[^'"` `\s]*/(users?|auth|login|logout|register)[^'"` `\s]*` -/
def apiP1 : RE :=
  .cat quoteRE
    (.cat (.chr (fun c => c == '/'))
      (.cat (.starC apiCls)
        (.cat (.chr (fun c => c == '/'))
          (.cat (.alt (.cat (.lit "user".data) (optC 's'))
                      (.alt (.lit "auth".data)
                        (.alt (.lit "login".data)
                          (.alt (.lit "logout".data) (.lit "register".data)))))
                (.starC apiCls)))))

/-- API pattern 2: `['"` `][^'"` `\s]*graphql[^'"` `\s]*` -/
def apiP2 : RE :=
  .cat quoteRE (.cat (.starC apiCls) (.cat (.lit "graphql".data) (.starC apiCls)))

/-- API pattern 3: `mutation\s+\w+|query\s+\w+` -/
def apiP3 : RE :=
  .alt (.cat (.lit "mutation".data) (.cat (.plusC isWs) (.plusC isWordC)))
       (.cat (.lit "query".data) (.cat (.plusC isWs) (.plusC isWordC)))

/-- API pattern 4: `wss?://[^\s"'<>{}|\\^` `\[\]]+` -/
def apiP4 : RE :=
  .cat (.lit "ws".data) (.cat (optC 's') (.cat (.lit "://".data) (.plusC urlCls1)))

/-- API pattern 5: `['"` `]/(data|fetch|submit|update|delete|create|get)[^'"` `\s]*` -/
def apiP5 : RE :=
  .cat quoteRE
    (.cat (.chr (fun c => c == '/'))
      (.cat (.alt (.lit "data".data)
              (.alt (.lit "fetch".data)
                (.alt (.lit "submit".data)
                  (.alt (.lit "update".data)
                    (.alt (.lit "delete".data)
                      (.alt (.lit "create".data) (.lit "get".data)))))))
            (.starC apiCls)))

/-- The ordered API_PATTERNS table of patterns.rs. -/
def API_PATTERNS : List RE := [apiP0, apiP1, apiP2, apiP3, apiP4, apiP5]

/-- Case-insensitive literal (for the `(?i)` method regex); the argument is
given in lowercase. -/
def ciLit (l : List Char) : RE :=
  l.foldr (fun c acc => .cat (.chr (fun x => x.toLower == c)) acc) .eps

/-- HTTP_METHODS: `(?i)(GET|POST|PUT|DELETE|PATCH|HEAD|OPTIONS)\s*[,\(\s]` -/
def HTTP_METHODS : RE :=
  .cat
    (.grp (.alt (ciLit "get".data)
      (.alt (ciLit "post".data)
        (.alt (ciLit "put".data)
          (.alt (ciLit "delete".data)
            (.alt (ciLit "patch".data)
              (.alt (ciLit "head".data) (ciLit "options".data))))))))
    (.cat (.starC isWs) (.chr (fun c => c == ',' || c == '(' || isWs c)))

/-- Crawler script regex: `<script[^>]+src=["']([^"']+)["']` (crawler/mod.rs). -/
def SCRIPT_REGEX : RE :=
  .cat (.lit "<script".data)
    (.cat (.plusC (fun c => !(c == '>')))
      (.cat (.lit "src=".data)
        (.cat (.chr (fun c => c == '"' || c == sqChar))
          (.cat (.grp (.plusC (fun c => !(c == '"' || c == sqChar))))
                (.chr (fun c => c == '"' || c == sqChar))))))

/-! ## List-of-chars helpers mirroring Rust `str`/`String` operations -/

/-- Model of `str::trim_matches` with the quote predicate: drop matching
characters from both ends. -/
def trimQuotes (l : List Char) : List Char :=
  ((l.dropWhile isQuote).reverse.dropWhile isQuote).reverse

/-- Model of Rust `str::contains(needle)` (substring search). -/
def containsSub (hay needle : List Char) : Bool :=
  needle.isPrefixOf hay ||
    match hay with
    | [] => false
    | _ :: t => containsSub t needle

/-- Byte length of a string, as Rust `str::len()`. -/
def byteLenL (l : List Char) : Nat := (l.map Char.utf8Size).sum

/-- Character index corresponding to a byte offset; `none` when the byte
offset is not a character boundary (where Rust slicing panics). -/
def charIdxOfByte : List Char → Nat → Option Nat
  | _, 0 => some 0
  | [], _ + 1 => none
  | c :: rest, n + 1 =>
    if c.utf8Size ≤ n + 1 then
      (charIdxOfByte rest (n + 1 - c.utf8Size)).map (· + 1)
    else none

/-- Model of the Rust byte slice `&content[a..b]`: `none` models the panic on
a non-boundary index. -/
def sliceByte (content : List Char) (a b : Nat) : Option (List Char) :=
  match charIdxOfByte content a, charIdxOfByte content b with
  | some i, some j => some ((content.drop i).take (j - i))
  | _, _ => none

/-- Byte-order (= code-point order) comparison of strings, as Rust `String`'s
`Ord` used by `Vec::sort`. -/
def lexLe : List Char → List Char → Bool
  | [], _ => true
  | _ :: _, [] => false
  | a :: as_, b :: bs =>
    if a = b then lexLe as_ bs else decide (a < b)

/-- Insert into a sorted list (stable). -/
def insSorted (x : List Char) : List (List Char) → List (List Char)
  | [] => [x]
  | y :: ys => if lexLe x y then x :: y :: ys else y :: insSorted x ys

/-- Model of `Vec::sort` on strings. -/
def sortStrs : List (List Char) → List (List Char)
  | [] => []
  | x :: xs => insSorted x (sortStrs xs)

/-- Model of `Vec::dedup`: remove consecutive duplicates. -/
def dedupConsec : List (List Char) → List (List Char)
  | [] => []
  | [x] => [x]
  | x :: y :: ys =>
    if x = y then dedupConsec (y :: ys) else x :: dedupConsec (y :: ys)

/-- Split on a character, as Rust `str::split(c)` (an empty input yields one
empty component; separators at the ends yield empty components). -/
def splitOnChar (sep : Char) : List Char → List (List Char)
  | [] => [[]]
  | c :: rest =>
    if c = sep then [] :: splitOnChar sep rest
    else
      match splitOnChar sep rest with
      | h :: t => (c :: h) :: t
      | [] => [[c]]

/-! ## Data model (types.rs) -/

/-- EndpointType enum of types.rs. -/
inductive EndpointType : Type where
  | Rest : EndpointType
  | GraphQL : EndpointType
  | WebSocket : EndpointType
  | Unknown : EndpointType
deriving DecidableEq, Repr

/-- Endpoint struct of types.rs; `metadata`'s HashMap is modelled as an
association list. -/
structure Endpoint : Type where
  url : List Char
  method : Option (List Char)
  endpoint_type : EndpointType
  source : Option (List Char)
  line : Option Nat
  params : Option (List (List Char))
  metadata : Option (List (List Char × List Char))
deriving DecidableEq, Repr

namespace Endpoint

/-- Endpoint::new. -/
def new (url : List Char) (endpoint_type : EndpointType) : Endpoint :=
  { url := url, method := none, endpoint_type := endpoint_type,
    source := none, line := none, params := none, metadata := none }

/-- Endpoint::with_method. -/
def with_method (e : Endpoint) (m : List Char) : Endpoint :=
  { e with method := some m }

/-- Endpoint::with_source. -/
def with_source (e : Endpoint) (s : List Char) : Endpoint :=
  { e with source := some s }

/-- Endpoint::with_line. -/
def with_line (e : Endpoint) (n : Nat) : Endpoint :=
  { e with line := some n }

/-- Endpoint::with_params. -/
def with_params (e : Endpoint) (ps : List (List Char)) : Endpoint :=
  { e with params := some ps }

/-- Endpoint::with_metadata. -/
def with_metadata (e : Endpoint) (md : List (List Char × List Char)) : Endpoint :=
  { e with metadata := some md }

end Endpoint

/-- ScanConfig of config.rs (fields the core reads). -/
structure ScanConfig : Type where
  target_url : List Char
  rate_limit : Nat
  timeout_seconds : Nat
  max_concurrent : Nat
  follow_redirects : Bool
  respect_robots_txt : Bool
  user_agent : Option (List Char)
  filter_pattern : Option (List Char)
  plugin_path : Option (List Char)

/-- ScanConfig::default. -/
def ScanConfig.default : ScanConfig :=
  { target_url := [], rate_limit := 10, timeout_seconds := 30,
    max_concurrent := 10, follow_redirects := true, respect_robots_txt := true,
    user_agent := some "Endpointo/0.1.0".data, filter_pattern := none,
    plugin_path := none }

/-! ## PatternMatcher (patterns.rs) -/

/-- The filtered static-asset extensions of `is_valid_url`. -/
def extList : List (List Char) :=
  [".jpg".data, ".png".data, ".gif".data, ".css".data, ".woff".data,
   ".ttf".data, ".ico".data]

/-- PatternMatcher::is_valid_url: length (in bytes) at least 4 and not ending
in a filtered static-asset extension. -/
def is_valid_url (url : List Char) : Bool :=
  if byteLenL url < 4 then false
  else !(extList.any (fun ext => ext.isSuffixOf url))

/-- PatternMatcher::find_urls: all URL_REGEX matches, quote-trimmed, kept when
non-empty and valid, then sorted and consecutively deduplicated. -/
def find_urls (content : List Char) : List (List Char) :=
  let raw := (capturesIter URL_REGEX content).map (fun m => trimQuotes m.2.1)
  let kept := raw.filter (fun u => !u.isEmpty && is_valid_url u)
  dedupConsec (sortStrs kept)

/-- Search the ±100-byte snippet for an HTTP method token: first HTTP_METHODS
match's capture group, uppercased. -/
def findMethodIn (snippet : List Char) : Option (List Char) :=
  match scanRE HTTP_METHODS snippet with
  | some (_, _, some g) => some (g.map Char.toUpper)
  | _ => none

/-- PatternMatcher::find_http_method_near: slice content at byte offsets
`pos - 100` (saturating) and `min (pos+100) len`; the outer `none` models the
Rust panic when a slice offset is not a character boundary. -/
def find_http_method_near (content : List Char) (pos : Nat) :
    Option (Option (List Char)) :=
  let start := pos - 100
  let stop := min (pos + 100) (byteLenL content)
  match sliceByte content start stop with
  | none => none
  | some snippet => some (findMethodIn snippet)

/-- Build one endpoint from an API-pattern match (patterns.rs lines 72-96);
`none` models the panic inside `find_http_method_near`. -/
def mkApiEndpoint (content : List Char) (source : Option (List Char))
    (m : Nat × List Char × Option (List Char)) : Option Endpoint :=
  let url := trimQuotes m.2.1
  let et : EndpointType :=
    if containsSub url "graphql".data then .GraphQL
    else if "ws".data.isPrefixOf url then .WebSocket
    else .Rest
  match find_http_method_near content (byteLenL (content.take m.1)) with
  | none => none
  | some mth =>
    let e := Endpoint.new url et
    let e1 := match mth with | some mm => e.with_method mm | none => e
    let e2 := match source with | some s => e1.with_source s | none => e1
    some e2

/-- Sequence a list of optional results, failing at the first `none` (models
a panic aborting the enclosing call). -/
def mapOpt {α β : Type} (f : α → Option β) : List α → Option (List β)
  | [] => some []
  | x :: xs =>
    match f x, mapOpt f xs with
    | some y, some ys => some (y :: ys)
    | _, _ => none

/-- Endpoints produced by one API pattern over the content. -/
def patternEndpoints (content : List Char) (source : Option (List Char))
    (re : RE) : Option (List Endpoint) :=
  mapOpt (mkApiEndpoint content source) (capturesIter re content)

/-- PatternMatcher::find_api_endpoints: all API_PATTERNS in order; `none`
models the panic in `find_http_method_near`. -/
def find_api_endpoints (content : List Char) (source : Option (List Char)) :
    Option (List Endpoint) :=
  match mapOpt (patternEndpoints content source) API_PATTERNS with
  | some ls => some ls.flatten
  | none => none

/-! ## Parser (parser/mod.rs) -/

/-- Parser::determine_endpoint_type. -/
def determine_endpoint_type (url : List Char) : EndpointType :=
  if containsSub url "graphql".data || containsSub url "/gql".data then
    .GraphQL
  else if "ws://".data.isPrefixOf url || "wss://".data.isPrefixOf url then
    .WebSocket
  else if containsSub url "/api/".data || containsSub url "/v1/".data ||
      containsSub url "/v2/".data then
    .Rest
  else .Unknown

/-- Parser::extract_params: after the first `?`, split on `&` and keep the
text left of `=` of every component. -/
def extract_params (url : List Char) : Option (List (List Char)) :=
  match url.findIdx? (fun c => c = '?') with
  | none => none
  | some i =>
    let query := url.drop (i + 1)
    let params := (splitOnChar '&' query).filterMap (fun p =>
      (splitOnChar '=' p).head?)
    if params.isEmpty then none else some params

/-- Endpoint built from one generic-URL-rule candidate (parser/mod.rs 36-50). -/
def mkUrlEndpoint (source : Option (List Char)) (url : List Char) : Endpoint :=
  let e := Endpoint.new url (determine_endpoint_type url)
  let e1 := match source with | some s => e.with_source s | none => e
  match extract_params url with | some ps => e1.with_params ps | none => e1

/-- Parser::parse_js: generic URL candidates, then API-signature candidates;
`none` models the byte-slicing panic inside method inference.  (The Rust
function returns `Ok` on every non-panicking path.) -/
def parse_js (content : List Char) (source : Option (List Char)) :
    Option (List Endpoint) :=
  let urlEps := (find_urls content).map (mkUrlEndpoint source)
  match find_api_endpoints content source with
  | none => none
  | some apiEps => some (urlEps ++ apiEps)

/-! ## EndpointFilter (parser/filters.rs) -/

/-- EndpointFilter::matches: plain substring matching. -/
def filterMatches (url pattern : List Char) : Bool := containsSub url pattern

/-- Helper for `deduplicate`: keep an endpoint when its url was not seen yet. -/
def dedupGo (seen : List (List Char)) : List Endpoint → List Endpoint
  | [] => []
  | e :: es =>
    if e.url ∈ seen then dedupGo seen es
    else e :: dedupGo (e.url :: seen) es

/-- EndpointFilter::deduplicate: retain each endpoint whose `url` is new
(keyed on `url` alone).  Defined in filters.rs; not called anywhere in the
scan pipeline. -/
def deduplicate (endpoints : List Endpoint) : List Endpoint :=
  dedupGo [] endpoints

/-! ## Crawler and HttpClient (crawler/mod.rs, crawler/client.rs)

Network I/O is abstracted as an oracle `net : List Char → Except Err (List
Char)` giving the outcome of `HttpClient::get` per URL, with reqwest errors
already mapped to the `Error` variants as client.rs lines 62-70 do.  The
crawler's shared state is the visited set plus a log of the URLs passed to
`client.get` (one entry per actual network request). -/

/-- Error variants of error.rs reachable from the crawl path. -/
inductive Err : Type where
  | http : Err
  | io : Err
  | urlParse : Err
  | validation : Err
  | timeout : Err
  | tls : Err
  | plugin : Err
  | other : Err
deriving DecidableEq, Repr

/-- Crawler state: the DashSet of visited URLs and the request log. -/
structure CrawlState : Type where
  visited : List (List Char)
  requests : List (List Char)
deriving DecidableEq, Repr

/-- The network oracle: outcome of `HttpClient::get` for each URL. -/
def Net : Type := List Char → Except Err (List Char)

/-- HttpClient::get as observed through the oracle, logging the request. -/
def client_get (net : Net) (st : CrawlState) (url : List Char) :
    Except Err (List Char) × CrawlState :=
  (net url, { st with requests := st.requests ++ [url] })

/-- Crawler::fetch_html: a visited URL yields empty content without a request;
otherwise insert into the visited set and issue the request. -/
def fetch_html (net : Net) (st : CrawlState) (url : List Char) :
    Except Err (List Char) × CrawlState :=
  if url ∈ st.visited then (.ok [], st)
  else client_get net { st with visited := url :: st.visited } url

/-- Crawler::fetch_js: same visited-set discipline as fetch_html. -/
def fetch_js (net : Net) (st : CrawlState) (url : List Char) :
    Except Err (List Char) × CrawlState :=
  if url ∈ st.visited then (.ok [], st)
  else client_get net { st with visited := url :: st.visited } url

/-- Parsed URL as exposed by the external `url` crate: the pieces the core
reads, plus `join` for resolving relative script URLs. -/
structure PUrl : Type where
  scheme : List Char
  host : List Char
  path : List Char
  join : List Char → Option (List Char)

/-- The robots.txt URL built in check_robots_txt (client.rs lines 93-97). -/
def robotsUrl (pu : PUrl) : List Char :=
  pu.scheme ++ "://".data ++ pu.host ++ "/robots.txt".data

/-- Decision core of HttpClient::check_robots_txt (client.rs lines 102-123):
an `Ok` body is checked with a plain substring test; a fetch failure that is
`Error::HttpError` allows the crawl; every other fetch failure propagates. -/
def check_robots_core (fetchRes : Except Err (List Char)) (path : List Char) :
    Except Err Bool :=
  match fetchRes with
  | .ok content =>
    .ok (!containsSub content ("Disallow: ".data ++ path))
  | .error .http => .ok true
  | .error e => .error e

/-- HttpClient::check_robots_txt: fetch robots.txt through the rate-limited
client, then decide. -/
def check_robots_txt (net : Net) (st : CrawlState) (pu : PUrl) :
    Except Err Bool × CrawlState :=
  let r := client_get net st (robotsUrl pu)
  (check_robots_core r.1 pu.path, r.2)

/-- Crawler::extract_scripts: script regex captures resolved against the base
URL. -/
def extract_scripts (html : List Char) (pu : PUrl) : List (List Char) :=
  (capturesIter SCRIPT_REGEX html).filterMap (fun m =>
    match m.2.2 with
    | some src => pu.join src
    | none => none)

/-- Crawler::crawl: parse the entry URL, optionally consult robots.txt
(a robots error propagates via `?`; a disallow yields `Ok []`), fetch the
entry page (a fetch error is swallowed, yielding no assets), and extract
script URLs.  `parseU` abstracts `Url::parse`. -/
def crawl (net : Net) (cfg : ScanConfig) (parseU : List Char → Option PUrl)
    (st : CrawlState) (url : List Char) :
    Except Err (List (List Char)) × CrawlState :=
  match parseU url with
  | none => (.error .urlParse, st)
  | some pu =>
    match (if cfg.respect_robots_txt then check_robots_txt net st pu
           else (.ok true, st)) with
    | (.error e, st1) => (.error e, st1)
    | (.ok false, st1) => (.ok [], st1)
    | (.ok true, st1) =>
      match fetch_html net st1 url with
      | (.ok html, st2) => (.ok (extract_scripts html pu), st2)
      | (.error _, st2) => (.ok [], st2)

/-! ## Scanner orchestrator (scanner.rs)

Plugins are abstracted as the two callbacks `pfilter`/`ptrans` of
PluginManager::filter_endpoint / transform_endpoint (identity and `true` when
no plugin is loaded). -/

/-- Plugin application loop shared by scan_url and parse_file (scanner.rs
lines 96-102 and 127-133). -/
def applyPlugins (pfilter : Endpoint → Bool) (ptrans : Endpoint → Endpoint)
    (eps : List Endpoint) : List Endpoint :=
  eps.foldl (fun acc e => if pfilter e then acc ++ [ptrans e] else acc) []

/-- Per-asset loop of Scanner::scan_url (lines 67-86): fetch each asset,
parse it, extend the accumulator; fetch errors are skipped; the outer `none`
models a parse panic. -/
def scanAssets (net : Net) (st : CrawlState) (assets : List (List Char)) :
    Option (List Endpoint × CrawlState) :=
  assets.foldl
    (fun acc asset =>
      match acc with
      | none => none
      | some (eps, s) =>
        match fetch_js net s asset with
        | (.ok content, s1) =>
          match parse_js content (some asset) with
          | some newEps => some (eps ++ newEps, s1)
          | none => none
        | (.error _, s1) => some (eps, s1))
    (some ([], st))

/-- Scanner::scan_url: crawl, parse every discovered asset, re-fetch and
parse the entry page, apply plugins, then the configured substring filter.
The outer `none` models a panic inside `parse_js`. -/
def scan_url (net : Net) (cfg : ScanConfig) (parseU : List Char → Option PUrl)
    (pfilter : Endpoint → Bool) (ptrans : Endpoint → Endpoint)
    (st : CrawlState) (url : List Char) :
    Option (Except Err (List Endpoint) × CrawlState) :=
  match crawl net cfg parseU st url with
  | (.error e, st1) => some (.error e, st1)
  | (.ok assets, st1) =>
    match scanAssets net st1 assets with
    | none => none
    | some (eps, st2) =>
      let afterMain :=
        match fetch_js net st2 url with
        | (.ok html, st3) =>
          match parse_js html (some url) with
          | some more => some (eps ++ more, st3)
          | none => none
        | (.error _, st3) => some (eps, st3)
      match afterMain with
      | none => none
      | some (all, stF) =>
        let processed := applyPlugins pfilter ptrans all
        let final :=
          match cfg.filter_pattern with
          | some pat => processed.filter (fun e => containsSub e.url pat)
          | none => processed
        some (.ok final, stF)

/-- Scanner::parse_file on already-read file content: parse with the path as
source label, then apply plugins.  (`none` models a parse panic.) -/
def parse_file (content : List Char) (path : List Char)
    (pfilter : Endpoint → Bool) (ptrans : Endpoint → Endpoint) :
    Option (List Endpoint) :=
  (parse_js content (some path)).map (applyPlugins pfilter ptrans)

/-! ## Specification-side definition for the query-parameter claim -/

/-- Written after the spec's words for query-parameter extraction, amended
only to keep empty components: for a URL containing `?`, the keys (text left
of `=`) of every `&`-separated component of the query string, in order. -/
def params_spec (url : List Char) : Option (List (List Char)) :=
  match url.findIdx? (fun c => c = '?') with
  | none => none
  | some i =>
    some ((splitOnChar '&' (url.drop (i + 1))).map
      (fun p => p.takeWhile (fun c => c != '=')))

/-! ## Concrete inputs and oracles used by the claim instances -/

/-- Plugin filter when no plugin is loaded (plugins/mod.rs: always `true`). -/
def idFilter : Endpoint → Bool := fun _ => true

/-- Plugin transform when no plugin is loaded (identity). -/
def idTransform : Endpoint → Endpoint := fun e => e

/-- Fresh crawler state at the start of a scan. -/
def st0 : CrawlState := { visited := [], requests := [] }

def c1content : List Char := "\"/api/users\"".data

def c1path : List Char := "t.js".data

def c1url : List Char := "/api/users".data

def c2pu : PUrl :=
  { scheme := "http".data, host := "e.com".data, path := "/x".data,
    join := fun _ => none }

def c2entry : List Char := "http://e.com/x".data

/-- Network oracle on which the robots.txt fetch times out. -/
def c2net : Net := fun u =>
  if u = robotsUrl c2pu then .error .timeout else .ok []

def c2parseU : List Char → Option PUrl := fun u =>
  if u = c2entry then some c2pu else none

def c3cexContent : List Char := "\"/api/x.css\"".data

def c3wContent : List Char := "\"/api/users\"".data

def c3wEp : Endpoint :=
  { url := "/api/users".data, method := none, endpoint_type := .Rest,
    source := none, line := none, params := none, metadata := none }

def c3wOut : List Endpoint := [c3wEp, c3wEp, c3wEp]

def c4content : List Char :=
  "fetch(\"https://api.example.com/users\"); axios.get(\"/api/v1/posts\");".data

def c4posts : List Char := "/api/v1/posts".data

def c4users : List Char := "https://api.example.com/users".data

def c5entry : List Char := "http://t.example/".data

def c5html : List Char := "x = \"/api/secret\"".data

def c5pu : PUrl :=
  { scheme := "http".data, host := "t.example".data, path := "/".data,
    join := fun _ => none }

/-- Network oracle serving the entry page HTML (no scripts linked). -/
def c5net : Net := fun u => if u = c5entry then .ok c5html else .error .http

def c5parseU : List Char → Option PUrl := fun u =>
  if u = c5entry then some c5pu else none

def c5cfg : ScanConfig := { ScanConfig.default with respect_robots_txt := false }

def c5secret : List Char := "/api/secret".data

/-- Text containing the GraphQL query-template marker and a line with
`/v1/query`. -/
def c6content : List Char := "gql".data ++ [bqChar] ++ " a\nxx /v1/query".data

def c6marker : List Char := "gql".data ++ [bqChar]

def c7content : List Char := "x = \"http://e.com/p?a=1&&b=2\";".data

def c7url : List Char := "http://e.com/p?a=1&&b=2".data

/-- Thirty-four three-byte characters (U+20AC) followed by a quoted API path:
the first API-pattern match starts at byte offset 102, so the method window
starts at byte 2, inside the first character. -/
def c10content : List Char :=
  List.replicate 34 (Char.ofNat 0x20AC) ++ "\"/api/users\"".data

/-! ## Language semantics of the regex engine and its soundness

Only soundness is needed: every match text produced by the engine belongs to
the language of its pattern.  This drives the universal claims about
endpoints emitted from API-signature matches. -/

/-- Language of a regular expression. -/
inductive Lang : RE → List Char → Prop where
  | eps : Lang .eps []
  | lit (l : List Char) : Lang (.lit l) l
  | chr {p : Char → Bool} {c : Char} : p c = true → Lang (.chr p) [c]
  | cat {a b : RE} {t u : List Char} :
      Lang a t → Lang b u → Lang (.cat a b) (t ++ u)
  | altL {a b : RE} {t : List Char} : Lang a t → Lang (.alt a b) t
  | altR {a b : RE} {t : List Char} : Lang b t → Lang (.alt a b) t
  | star {p : Char → Bool} {t : List Char} :
      (∀ c ∈ t, p c = true) → Lang (.starC p) t
  | plus {p : Char → Bool} {t : List Char} :
      t ≠ [] → (∀ c ∈ t, p c = true) → Lang (.plusC p) t
  | grp {a : RE} {t : List Char} : Lang a t → Lang (.grp a) t

theorem isPrefixOf_take {l s : List Char} (h : l.isPrefixOf s = true) :
    s.take l.length = l ∧ l.length ≤ s.length := by
  induction l generalizing s with
  | nil => simp
  | cons c l ih =>
    cases s with
    | nil => simp [List.isPrefixOf] at h
    | cons d s =>
      simp only [List.isPrefixOf, Bool.and_eq_true, beq_iff_eq] at h
      obtain ⟨rfl, h2⟩ := h
      obtain ⟨h3, h4⟩ := ih h2
      constructor
      · simpa [List.take] using h3
      · simpa using h4

theorem tryDrop_sound {α : Type} {s : List Char} {g : Option (List Char)}
    {k : List Char → Option (List Char) → Option α} {r : α} :
    ∀ n, tryDrop s g k n = some r → ∃ j, j ≤ n ∧ k (s.drop j) g = some r := by
  intro n
  induction n with
  | zero =>
    intro h
    exact ⟨0, Nat.le_refl 0, by simpa [tryDrop] using h⟩
  | succ n ih =>
    intro h
    rw [tryDrop] at h
    cases hk : k (s.drop (n + 1)) g with
    | some r2 =>
      rw [hk] at h
      simp at h
      exact ⟨n + 1, Nat.le_refl _, by rw [hk, h]⟩
    | none =>
      rw [hk] at h
      obtain ⟨j, hj, hkj⟩ := ih h
      exact ⟨j, Nat.le_succ_of_le hj, hkj⟩

theorem tryDropPos_sound {α : Type} {s : List Char} {g : Option (List Char)}
    {k : List Char → Option (List Char) → Option α} {r : α} :
    ∀ n, tryDropPos s g k n = some r →
      ∃ j, 1 ≤ j ∧ j ≤ n ∧ k (s.drop j) g = some r := by
  intro n
  induction n with
  | zero => intro h; simp [tryDropPos] at h
  | succ n ih =>
    intro h
    rw [tryDropPos] at h
    cases hk : k (s.drop (n + 1)) g with
    | some r2 =>
      rw [hk] at h
      simp at h
      exact ⟨n + 1, Nat.succ_le_succ (Nat.zero_le n), Nat.le_refl _, by rw [hk, h]⟩
    | none =>
      rw [hk] at h
      obtain ⟨j, h1, hj, hkj⟩ := ih h
      exact ⟨j, h1, Nat.le_succ_of_le hj, hkj⟩

theorem take_all_of_le_takeWhile {p : Char → Bool} :
    ∀ (s : List Char) (j : Nat), j ≤ (s.takeWhile p).length →
      ∀ c ∈ s.take j, p c = true := by
  intro s
  induction s with
  | nil => intro j _ c hc; simp at hc
  | cons d s ih =>
    intro j hj c hc
    cases hp : p d with
    | false =>
      rw [List.takeWhile_cons, hp] at hj
      simp at hj
      subst hj
      simp at hc
    | true =>
      simp only [List.takeWhile_cons, hp, if_true, List.length_cons] at hj
      cases j with
      | zero => simp at hc
      | succ j' =>
        rw [List.take_succ_cons] at hc
        rcases List.mem_cons.mp hc with rfl | hc2
        · exact hp
        · exact ih j' (by omega) c hc2

theorem len_takeWhile_le (p : Char → Bool) :
    ∀ s : List Char, (s.takeWhile p).length ≤ s.length := by
  intro s
  induction s with
  | nil => simp
  | cons c s ih =>
    rw [List.takeWhile_cons]
    cases p c with
    | false => simp
    | true => simpa using Nat.succ_le_succ ih

theorem matchRE_sound {α : Type} (re : RE) :
    ∀ (s : List Char) (g : Option (List Char))
      (k : List Char → Option (List Char) → Option α) (r : α),
      matchRE re s g k = some r →
      ∃ n g', n ≤ s.length ∧ Lang re (s.take n) ∧ k (s.drop n) g' = some r := by
  induction re with
  | eps =>
    intro s g k r h
    exact ⟨0, g, Nat.zero_le _, by simpa using Lang.eps, by simpa [matchRE] using h⟩
  | lit l =>
    intro s g k r h
    rw [matchRE] at h
    by_cases hp : l.isPrefixOf s = true
    · rw [if_pos hp] at h
      obtain ⟨ht, hl⟩ := isPrefixOf_take hp
      refine ⟨l.length, g, hl, ?_, h⟩
      rw [ht]
      exact Lang.lit l
    · rw [if_neg hp] at h
      exact absurd h (by simp)
  | chr p =>
    intro s g k r h
    cases s with
    | nil => simp [matchRE] at h
    | cons c s' =>
      rw [matchRE] at h
      by_cases hp : p c = true
      · rw [if_pos hp] at h
        exact ⟨1, g, by simp, by simpa using Lang.chr hp, h⟩
      · rw [if_neg hp] at h
        exact absurd h (by simp)
  | cat a b iha ihb =>
    intro s g k r h
    rw [matchRE] at h
    obtain ⟨n1, g1, hn1, hL1, hk1⟩ := iha s g _ r h
    obtain ⟨n2, g2, hn2, hL2, hk2⟩ := ihb (s.drop n1) g1 k r hk1
    refine ⟨n1 + n2, g2, ?_, ?_, ?_⟩
    · rw [List.length_drop] at hn2; omega
    · rw [List.take_add]
      exact Lang.cat hL1 hL2
    · rwa [List.drop_drop] at hk2
  | alt a b iha ihb =>
    intro s g k r h
    rw [matchRE] at h
    cases ha : matchRE a s g k with
    | some r2 =>
      rw [ha] at h
      obtain ⟨n, g', hn, hL, hk⟩ := iha s g k r2 ha
      cases h
      exact ⟨n, g', hn, Lang.altL hL, hk⟩
    | none =>
      rw [ha] at h
      obtain ⟨n, g', hn, hL, hk⟩ := ihb s g k r h
      exact ⟨n, g', hn, Lang.altR hL, hk⟩
  | starC p =>
    intro s g k r h
    rw [matchRE] at h
    obtain ⟨j, hj, hk⟩ := tryDrop_sound _ h
    refine ⟨j, g, ?_, ?_, hk⟩
    · exact Nat.le_trans hj (len_takeWhile_le p s)
    · exact Lang.star (take_all_of_le_takeWhile s j hj)
  | plusC p =>
    intro s g k r h
    rw [matchRE] at h
    by_cases hm : (s.takeWhile p).length = 0
    · rw [if_pos hm] at h; exact absurd h (by simp)
    · rw [if_neg hm] at h
      obtain ⟨j, h1, hj, hk⟩ := tryDropPos_sound _ h
      refine ⟨j, g, ?_, ?_, hk⟩
      · exact Nat.le_trans hj (len_takeWhile_le p s)
      · refine Lang.plus ?_ (take_all_of_le_takeWhile s j hj)
        have hs : s ≠ [] := by
          intro hnil
          rw [hnil] at hm
          simp at hm
        cases s with
        | nil => exact absurd rfl hs
        | cons c s' =>
          cases j with
          | zero => omega
          | succ j' => simp [List.take_succ_cons]
  | grp a ih =>
    intro s g k r h
    rw [matchRE] at h
    obtain ⟨n, g', hn, hL, hk⟩ := ih s none _ r h
    exact ⟨n, some (s.take (s.length - (s.drop n).length)), hn, Lang.grp hL, hk⟩

theorem matchHere_sound {re : RE} {t : List Char} {len : Nat}
    {g : Option (List Char)} (h : matchHere re t = some (len, g)) :
    len ≤ t.length ∧ Lang re (t.take len) := by
  obtain ⟨n, g', hn, hL, hk⟩ := matchRE_sound re t none _ _ h
  simp only [Option.some.injEq, Prod.mk.injEq] at hk
  obtain ⟨hlen, -⟩ := hk
  rw [List.length_drop] at hlen
  have hn' : n = len := by omega
  subst hn'
  exact ⟨hn, hL⟩

theorem scanRE_sound {re : RE} :
    ∀ (t : List Char) (d len : Nat) (g : Option (List Char)),
      scanRE re t = some (d, len, g) → Lang re ((t.drop d).take len) := by
  intro t
  induction t with
  | nil =>
    intro d len g h
    rw [scanRE] at h
    cases hm : matchHere re [] with
    | some x =>
      rw [hm] at h
      cases x with
      | mk l gg =>
        cases h
        exact (matchHere_sound hm).2
    | none => rw [hm] at h; exact absurd h (by simp)
  | cons c rest ih =>
    intro d len g h
    rw [scanRE] at h
    cases hm : matchHere re (c :: rest) with
    | some x =>
      rw [hm] at h
      cases x with
      | mk l gg =>
        cases h
        exact (matchHere_sound hm).2
    | none =>
      rw [hm] at h
      cases hs : scanRE re rest with
      | some y =>
        obtain ⟨d2, len2, g2⟩ := y
        rw [hs] at h
        simp only [Option.map_some', Option.some.injEq, Prod.mk.injEq] at h
        obtain ⟨h1, h2, h3⟩ := h
        subst h1
        subst h2
        subst h3
        simpa using ih d2 len2 g2 hs
      | none => rw [hs] at h; exact absurd h (by simp)

theorem iterRE_sound {re : RE} :
    ∀ (fuel : Nat) (t : List Char) (i : Nat) m,
      m ∈ iterRE re fuel t i → Lang re m.2.1 := by
  intro fuel
  induction fuel with
  | zero => intro t i m h; simp [iterRE] at h
  | succ fuel ih =>
    intro t i m h
    rw [iterRE] at h
    cases hs : scanRE re t with
    | none => rw [hs] at h; simp at h
    | some x =>
      rw [hs] at h
      obtain ⟨d, len, g⟩ := x
      rcases List.mem_cons.mp h with rfl | h2
      · exact scanRE_sound t d len g hs
      · exact ih _ _ m h2

theorem capturesIter_sound {re : RE} {content : List Char} {m} :
    m ∈ capturesIter re content → Lang re m.2.1 :=
  fun h => iterRE_sound _ content 0 m h

/-! ## Quote-trimming and membership lemmas -/

theorem mem_dropWhile_of_neg {p : Char → Bool} {c : Char} :
    ∀ l : List Char, c ∈ l → p c = false → c ∈ l.dropWhile p := by
  intro l
  induction l with
  | nil => intro h _; simp at h
  | cons d l ih =>
    intro hc hpc
    cases hd : p d with
    | true =>
      rw [List.dropWhile_cons, if_pos hd]
      rcases List.mem_cons.mp hc with rfl | h2
      · rw [hd] at hpc; simp at hpc
      · exact ih h2 hpc
    | false =>
      rw [List.dropWhile_cons, if_neg (by simp [hd])]
      exact hc

theorem trimQuotes_ne_nil {t : List Char} {c : Char} (hc : c ∈ t)
    (hq : isQuote c = false) : trimQuotes t ≠ [] := by
  have h1 : c ∈ t.dropWhile isQuote := mem_dropWhile_of_neg t hc hq
  have h2 : c ∈ (t.dropWhile isQuote).reverse := List.mem_reverse.mpr h1
  have h3 : c ∈ (t.dropWhile isQuote).reverse.dropWhile isQuote :=
    mem_dropWhile_of_neg _ h2 hq
  intro h
  rw [trimQuotes, List.reverse_eq_nil_iff] at h
  rw [h] at h3
  simp at h3

theorem mem_insSorted {x y : List Char} :
    ∀ l : List (List Char), x ∈ insSorted y l → x = y ∨ x ∈ l := by
  intro l
  induction l with
  | nil =>
    intro h
    simp [insSorted] at h
    exact Or.inl h
  | cons z l ih =>
    intro h
    rw [insSorted] at h
    by_cases hle : lexLe y z = true
    · rw [if_pos hle] at h
      rcases List.mem_cons.mp h with rfl | h2
      · exact Or.inl rfl
      · exact Or.inr h2
    · rw [if_neg hle] at h
      rcases List.mem_cons.mp h with rfl | h2
      · exact Or.inr (List.mem_cons_self _ _)
      · rcases ih h2 with h3 | h3
        · exact Or.inl h3
        · exact Or.inr (List.mem_cons_of_mem _ h3)

theorem mem_sortStrs {x : List Char} :
    ∀ l : List (List Char), x ∈ sortStrs l → x ∈ l := by
  intro l
  induction l with
  | nil =>
    intro h
    simp [sortStrs] at h
  | cons y l ih =>
    intro h
    rw [sortStrs] at h
    rcases mem_insSorted _ h with rfl | h2
    · exact List.mem_cons_self _ _
    · exact List.mem_cons_of_mem _ (ih h2)

theorem mem_dedupConsec {x : List Char} :
    ∀ l : List (List Char), x ∈ dedupConsec l → x ∈ l := by
  intro l
  induction l with
  | nil =>
    intro h
    simp [dedupConsec] at h
  | cons a l ih =>
    cases l with
    | nil => intro h; simpa [dedupConsec] using h
    | cons b l2 =>
      intro h
      rw [dedupConsec] at h
      by_cases hab : a = b
      · rw [if_pos hab] at h
        exact List.mem_cons_of_mem _ (ih h)
      · rw [if_neg hab] at h
        rcases List.mem_cons.mp h with rfl | h2
        · exact List.mem_cons_self _ _
        · exact List.mem_cons_of_mem _ (ih h2)

/-! ## Non-quote witnesses inside every API-pattern match -/

theorem lang_quote_slash {q : Char → Bool} {r : RE} {t : List Char}
    (h : Lang (.cat (.chr q) (.cat (.chr (fun c => c == '/')) r)) t) :
    ∃ c ∈ t, isQuote c = false := by
  cases h with
  | cat h1 h2 =>
    cases h2 with
    | cat h3 h4 =>
      cases h3 with
      | chr hp =>
        rename_i c
        have hc : c = '/' := by simpa using hp
        subst hc
        exact ⟨'/', by simp, by decide⟩

theorem apiP2_nonquote {t : List Char} (h : Lang apiP2 t) :
    ∃ c ∈ t, isQuote c = false := by
  have h' : Lang (.cat (.chr isQuote)
      (.cat (.starC apiCls) (.cat (.lit "graphql".data) (.starC apiCls)))) t := h
  cases h' with
  | cat h1 h2 =>
    cases h2 with
    | cat h3 h4 =>
      cases h4 with
      | cat h5 h6 =>
        cases h5
        have hg : 'g' ∈ "graphql".data := by decide
        exact ⟨'g', by simp [List.mem_append, hg], by decide⟩

theorem apiP3_nonquote {t : List Char} (h : Lang apiP3 t) :
    ∃ c ∈ t, isQuote c = false := by
  have h' : Lang (.alt
      (.cat (.lit "mutation".data) (.cat (.plusC isWs) (.plusC isWordC)))
      (.cat (.lit "query".data) (.cat (.plusC isWs) (.plusC isWordC)))) t := h
  cases h' with
  | altL h1 =>
    cases h1 with
    | cat h2 h3 =>
      cases h2
      have hm : 'm' ∈ "mutation".data := by decide
      exact ⟨'m', by simp [List.mem_append, hm], by decide⟩
  | altR h1 =>
    cases h1 with
    | cat h2 h3 =>
      cases h2
      have hq : 'q' ∈ "query".data := by decide
      exact ⟨'q', by simp [List.mem_append, hq], by decide⟩

theorem apiP4_nonquote {t : List Char} (h : Lang apiP4 t) :
    ∃ c ∈ t, isQuote c = false := by
  have h' : Lang (.cat (.lit "ws".data)
      (.cat (optC 's') (.cat (.lit "://".data) (.plusC urlCls1)))) t := h
  cases h' with
  | cat h1 h2 =>
    cases h1
    have hw : 'w' ∈ "ws".data := by decide
    exact ⟨'w', by simp [List.mem_append, hw], by decide⟩

theorem api_patterns_nonquote {p : RE} (hp : p ∈ API_PATTERNS) {t : List Char}
    (h : Lang p t) : ∃ c ∈ t, isQuote c = false := by
  simp only [API_PATTERNS, List.mem_cons, List.not_mem_nil, or_false] at hp
  rcases hp with rfl | rfl | rfl | rfl | rfl | rfl
  · exact lang_quote_slash h
  · exact lang_quote_slash h
  · exact apiP2_nonquote h
  · exact apiP3_nonquote h
  · exact apiP4_nonquote h
  · exact lang_quote_slash h

/-! ## Plumbing: emitted endpoints come from pattern matches -/

theorem mapOpt_mem {α β : Type} {f : α → Option β} :
    ∀ {l : List α} {ys : List β}, mapOpt f l = some ys →
      ∀ {y : β}, y ∈ ys → ∃ x ∈ l, f x = some y := by
  intro l
  induction l with
  | nil =>
    intro ys h y hy
    rw [mapOpt] at h
    cases h
    simp at hy
  | cons x xs ih =>
    intro ys h y hy
    rw [mapOpt] at h
    cases hfx : f x with
    | none => rw [hfx] at h; simp at h
    | some y1 =>
      rw [hfx] at h
      cases hrest : mapOpt f xs with
      | none => rw [hrest] at h; simp at h
      | some ys1 =>
        rw [hrest] at h
        simp only [Option.some.injEq] at h
        subst h
        rcases List.mem_cons.mp hy with rfl | h2
        · exact ⟨x, List.mem_cons_self _ _, hfx⟩
        · obtain ⟨x2, hx2, hfx2⟩ := ih hrest h2
          exact ⟨x2, List.mem_cons_of_mem _ hx2, hfx2⟩

theorem mkApiEndpoint_url {content : List Char} {src : Option (List Char)}
    {m : Nat × List Char × Option (List Char)} {e : Endpoint}
    (h : mkApiEndpoint content src m = some e) : e.url = trimQuotes m.2.1 := by
  rw [mkApiEndpoint] at h
  cases hm : find_http_method_near content (byteLenL (content.take m.1)) with
  | none => rw [hm] at h; simp at h
  | some mth =>
    rw [hm] at h
    simp only [Option.some.injEq] at h
    rw [← h]
    cases mth <;> cases src <;> rfl

theorem mkUrlEndpoint_url (src : Option (List Char)) (u : List Char) :
    (mkUrlEndpoint src u).url = u := by
  rw [mkUrlEndpoint.eq_def]
  cases src with
  | none =>
    cases hp : extract_params u with
    | none => simp only [hp]; rfl
    | some ps => simp only [hp]; rfl
  | some s =>
    cases hp : extract_params u with
    | none => simp only [hp]; rfl
    | some ps => simp only [hp]; rfl

theorem find_api_mem {content : List Char} {src : Option (List Char)}
    {apiEps : List Endpoint} (h : find_api_endpoints content src = some apiEps)
    {e : Endpoint} (he : e ∈ apiEps) :
    ∃ p ∈ API_PATTERNS, ∃ m ∈ capturesIter p content,
      mkApiEndpoint content src m = some e := by
  rw [find_api_endpoints] at h
  cases hmo : mapOpt (patternEndpoints content src) API_PATTERNS with
  | none => rw [hmo] at h; simp at h
  | some ls =>
    rw [hmo] at h
    simp only [Option.some.injEq] at h
    subst h
    obtain ⟨l, hl, hel⟩ := List.mem_flatten.mp he
    obtain ⟨p, hp, hfp⟩ := mapOpt_mem hmo hl
    rw [patternEndpoints] at hfp
    obtain ⟨m, hm, hfm⟩ := mapOpt_mem hfp hel
    exact ⟨p, hp, m, hm, hfm⟩

theorem find_urls_kept {content : List Char} {u : List Char}
    (hu : u ∈ find_urls content) :
    u ≠ [] ∧ is_valid_url u = true := by
  simp only [find_urls] at hu
  have h1 := mem_dedupConsec _ hu
  have h2 := mem_sortStrs _ h1
  have h3 := (List.mem_filter.mp h2).2
  simp at h3
  exact h3

/-! ## Helper lemmas for the query-parameter refinement -/

theorem splitOnChar_ne_nil (sep : Char) :
    ∀ l : List Char, splitOnChar sep l ≠ [] := by
  intro l
  induction l with
  | nil => simp [splitOnChar]
  | cons c rest ih =>
    rw [splitOnChar]
    by_cases hc : c = sep
    · simp [hc]
    · rw [if_neg hc]
      cases hsp : splitOnChar sep rest with
      | nil => simp
      | cons h t => simp

theorem head_splitOnChar (sep : Char) :
    ∀ p : List Char,
      (splitOnChar sep p).head? = some (p.takeWhile (fun c => c != sep)) := by
  intro p
  induction p with
  | nil => simp [splitOnChar]
  | cons c rest ih =>
    rw [splitOnChar]
    by_cases hc : c = sep
    · simp [hc, List.takeWhile_cons]
    · rw [if_neg hc]
      cases hsp : splitOnChar sep rest with
      | nil => exact absurd hsp (splitOnChar_ne_nil sep rest)
      | cons h t =>
        rw [hsp] at ih
        simp only [List.head?_cons, Option.some.injEq] at ih
        simp [List.takeWhile_cons, hc, ← ih]

theorem filterMap_all_some {α β : Type} (f : α → Option β) (g : α → β)
    (hfg : ∀ x, f x = some (g x)) :
    ∀ l : List α, l.filterMap f = l.map g := by
  intro l
  induction l with
  | nil => simp
  | cons x xs ih =>
    rw [List.filterMap_cons, hfg x]
    simp [ih]

/-! ## Claim theorems -/

/-- Claim C1, counterexample: `parse_file` (with no plugin loaded) on the file
content `"/api/users"` returns three endpoints all sharing the `(url, method)`
pair `("/api/users", none)` — the orchestrator applies no de-duplication, so
the claimed uniqueness of `(url, method)` pairs fails. -/
theorem c1_counterexample :
    ((parse_file c1content c1path idFilter idTransform).getD []).map
        (fun e => (e.url, e.method)) =
      [(c1url, none), (c1url, none), (c1url, none)] ∧
    (parse_file c1content c1path idFilter idTransform).isSome = true := by
  decide

/-- Claim C1, amended: neither `scan_url` nor `parse_file` de-duplicates;
the result can repeat the same `(url, method)` pair.  The helper
`EndpointFilter::deduplicate` (keyed on `url` alone) exists but is never
invoked: applying it to the three-element result would shrink it to one. -/
theorem c1_amended :
    ((parse_file c1content c1path idFilter idTransform).getD []).length = 3 ∧
    (deduplicate ((parse_file c1content c1path idFilter idTransform).getD
      [])).length = 1 := by
  decide

/-- Claim C2, counterexample: when the robots.txt fetch fails with a timeout,
`check_robots_txt` does not resolve to `true`: the error propagates and
`Crawler::crawl` returns an error instead of proceeding. -/
theorem c2_counterexample :
    crawl c2net ScanConfig.default c2parseU st0 c2entry =
      (.error .timeout, { visited := [], requests := [robotsUrl c2pu] }) ∧
    check_robots_txt c2net st0 c2pu =
      (.error .timeout, { visited := [], requests := [robotsUrl c2pu] }) := by
  constructor
  · rfl
  · rfl

/-- Claim C2, amended: a robots.txt fetch failure surfacing as
`Error::HttpError` (HTTP error statuses and other HTTP-layer failures)
resolves permissively to `true`, and a successfully fetched body never fails
(plain substring check); but timeout and connection/TLS failures propagate
out of `check_robots_txt` and fail the crawl. -/
theorem c2_amended :
    ∀ (path c : List Char),
      check_robots_core (.ok c) path =
        .ok (!containsSub c ("Disallow: ".data ++ path)) ∧
      check_robots_core (.error .http) path = .ok true ∧
      check_robots_core (.error .timeout) path = .error .timeout ∧
      check_robots_core (.error .tls) path = .error .tls :=
  fun _ _ => ⟨rfl, rfl, rfl, rfl⟩

/-- Claim C3, counterexample: on input `"/api/x.css"` the API-signature rule
emits an endpoint whose url ends in the filtered extension `.css` (the
`is_valid_url` filter guards only the generic URL rule). -/
theorem c3_counterexample :
    parse_js c3cexContent none =
      some [{ url := "/api/x.css".data, method := none, endpoint_type := .Rest,
              source := none, line := none, params := none, metadata := none }] ∧
    ".css".data.isSuffixOf "/api/x.css".data = true := by
  decide

/-- Claim C3, amended: on every non-panicking run of `parse_js`, every emitted
endpoint has a non-empty url; and every candidate of the generic URL rule
(`find_urls`) additionally passes `is_valid_url`, hence does not end in a
filtered static-asset extension — but API-signature candidates are not
subject to that filter. -/
theorem c3_amended :
    ∀ (content : List Char) (src : Option (List Char)) (eps : List Endpoint),
      parse_js content src = some eps →
      (∀ e ∈ eps, e.url ≠ []) ∧
      (∀ u ∈ find_urls content, is_valid_url u = true) := by
  intro content src eps h
  refine ⟨?_, fun u hu => (find_urls_kept hu).2⟩
  rw [parse_js] at h
  cases hapi : find_api_endpoints content src with
  | none => rw [hapi] at h; simp at h
  | some apiEps =>
    rw [hapi] at h
    simp only [Option.some.injEq] at h
    subst h
    intro e he
    rcases List.mem_append.mp he with h1 | h2
    · obtain ⟨u, hu, rfl⟩ := List.mem_map.mp h1
      rw [mkUrlEndpoint_url]
      exact (find_urls_kept hu).1
    · obtain ⟨p, hp, m, hm, hfm⟩ := find_api_mem hapi h2
      rw [mkApiEndpoint_url hfm]
      obtain ⟨c, hc, hq⟩ := api_patterns_nonquote hp (capturesIter_sound hm)
      exact trimQuotes_ne_nil hc hq

/-- Claim C3, witness for the amended theorem at the concrete content
`"/api/users"`, whose parse result is the explicit three-endpoint list. -/
theorem c3_witness :
    (∀ e ∈ c3wOut, e.url ≠ []) ∧
    (∀ u ∈ find_urls c3wContent, is_valid_url u = true) :=
  c3_amended c3wContent none c3wOut (by decide)

/-- Claim C4, counterexample: on the scenario input the full output is the
three listed endpoints; `https://api.example.com/users` is classified
`Unknown`, not `Rest` (the classifier needs a `/api/`, `/v1/` or `/v2/`
segment, and `api.example.com` has no trailing slash after `api`). -/
theorem c4_counterexample :
    ((parse_js c4content none).getD []).map
        (fun e => (e.url, e.endpoint_type)) =
      [(c4posts, .Rest), (c4users, .Unknown), (c4posts, .Rest)] ∧
    (parse_js c4content none).isSome = true := by
  decide

/-- Claim C4, amended: the scenario input yields at least two endpoints
including `/api/v1/posts` classified `Rest` (with inferred method GET) and
`https://api.example.com/users`, which is classified `Unknown`. -/
theorem c4_amended :
    (∃ e ∈ (parse_js c4content none).getD [],
      e.url = c4posts ∧ e.endpoint_type = .Rest ∧ e.method = some "GET".data) ∧
    (∃ e ∈ (parse_js c4content none).getD [],
      e.url = c4users ∧ e.endpoint_type = .Unknown) ∧
    2 ≤ ((parse_js c4content none).getD []).length := by
  decide

/-- Claim C5: code bug.  After `crawl` has fetched the entry page, the entry
URL is in the visited set, so the later `fetch_js(url)` of scan_url returns
empty content and the entry page's HTML is never parsed: a pattern occurring
only there (here `/api/secret`) is lost, and the scan returns no endpoints,
although parsing the entry HTML directly yields the endpoint twice. -/
theorem c5_entry_page_lost :
    scan_url c5net c5cfg c5parseU idFilter idTransform st0 c5entry =
      some (.ok [], { visited := [c5entry], requests := [c5entry] }) ∧
    ((parse_js c5html (some c5entry)).getD []).map (fun e => e.url) =
      [c5secret, c5secret] := by
  constructor
  · rfl
  · rfl

/-- Claim C6, counterexample: the input contains the GraphQL query-template
marker and a line containing `/v1/query`, yet `parse_js` emits only the
URL-rule candidate `/v1/query` typed `Rest` — no line-based GraphQL endpoint
at all. -/
theorem c6_counterexample :
    containsSub c6content c6marker = true ∧
    ((parse_js c6content none).getD []).map
        (fun e => (e.url, e.endpoint_type)) =
      [("/v1/query".data, EndpointType.Rest)] ∧
    (parse_js c6content none).isSome = true := by
  decide

/-- Claim C6, amended: `Parser::parse_js` performs no GraphQL line scanning
(the line rule exists only in `JsParser::parse`, which the pipeline never
invokes): on the marker-bearing input its full output is the single
`/v1/query` endpoint typed `Rest`. -/
theorem c6_amended :
    parse_js c6content none =
      some [{ url := "/v1/query".data, method := none, endpoint_type := .Rest,
              source := none, line := none, params := none,
              metadata := none }] := by
  decide

/-- Claim C7, counterexample: `http://e.com/p?a=1&&b=2` is a candidate of the
generic URL rule, and its params are `["a", "", "b"]` — the empty
`&`-component contributes an empty key instead of being skipped, so the
params are not the keys of only the non-empty components. -/
theorem c7_counterexample :
    c7url ∈ find_urls c7content ∧
    extract_params c7url = some ["a".data, [], "b".data] ∧
    extract_params c7url ≠ some ["a".data, "b".data] := by
  decide

/-- Claim C7, amended: for every URL containing `?`, the attached params are
the keys (text left of `=`) of every `&`-separated component of the query
string, including empty components (which contribute empty keys); a URL
without `?` gets no params.  `extract_params` coincides with this
specification-side description. -/
theorem c7_amended : ∀ url : List Char, extract_params url = params_spec url := by
  intro url
  cases h : url.findIdx? (fun c => c = '?') with
  | none => rw [extract_params, params_spec, h]
  | some i =>
    rw [extract_params, params_spec]
    simp only [h]
    rw [filterMap_all_some _ _ (fun p => head_splitOnChar '=' p)]
    have hne : (splitOnChar '&' (url.drop (i + 1))).map
        (fun p => p.takeWhile (fun c => c != '=')) ≠ [] := by
      intro hmap
      exact splitOnChar_ne_nil '&' _ (List.map_eq_nil_iff.mp hmap)
    simp [hne]

/-- Claim C8: visited-set idempotence.  After any fetch of `u` (via fetch_js
or fetch_html), a repeated fetch of `u` through either operation returns
`Ok ""` immediately with the state unchanged — no new network request — and
the request log holds at most one more occurrence of `u` than before. -/
theorem c8_visited_idempotent :
    ∀ (net : Net) (st : CrawlState) (u : List Char),
      fetch_js net ((fetch_js net st u).2) u = (.ok [], (fetch_js net st u).2) ∧
      fetch_html net ((fetch_js net st u).2) u =
        (.ok [], (fetch_js net st u).2) ∧
      fetch_js net ((fetch_html net st u).2) u =
        (.ok [], (fetch_html net st u).2) ∧
      ((fetch_js net ((fetch_js net st u).2) u).2.requests.count u ≤
        st.requests.count u + 1) := by
  intro net st u
  have hmj : ∀ s : CrawlState, u ∈ (fetch_js net s u).2.visited := by
    intro s
    by_cases h : u ∈ s.visited
    · simp [fetch_js, h]
    · simp [fetch_js, h, client_get]
  have hmh : ∀ s : CrawlState, u ∈ (fetch_html net s u).2.visited := by
    intro s
    by_cases h : u ∈ s.visited
    · simp [fetch_html, h]
    · simp [fetch_html, h, client_get]
  have hfj : ∀ s : CrawlState, u ∈ s.visited →
      fetch_js net s u = (.ok [], s) := by
    intro s h
    simp [fetch_js, h]
  have hfh : ∀ s : CrawlState, u ∈ s.visited →
      fetch_html net s u = (.ok [], s) := by
    intro s h
    simp [fetch_html, h]
  refine ⟨hfj _ (hmj st), hfh _ (hmj st), hfj _ (hmh st), ?_⟩
  rw [hfj _ (hmj st)]
  by_cases h : u ∈ st.visited
  · simp [fetch_js, h]
  · simp [fetch_js, h, client_get, List.count_append]

/-- Claim C9: each Endpoint builder update sets exactly the named field and
leaves every other field unchanged (record update of the one field). -/
theorem c9_builders :
    ∀ (e : Endpoint) (m s : List Char) (n : Nat) (ps : List (List Char))
      (md : List (List Char × List Char)),
      e.with_method m = { e with method := some m } ∧
      e.with_source s = { e with source := some s } ∧
      e.with_line n = { e with line := some n } ∧
      e.with_params ps = { e with params := some ps } ∧
      e.with_metadata md = { e with metadata := some md } :=
  fun _ _ _ _ _ _ => ⟨rfl, rfl, rfl, rfl, rfl⟩

/-- Claim C10: code bug.  On thirty-four U+20AC characters followed by
`"/api/users"`, the first API-signature match starts at byte offset 102, the
method window start 102 - 100 = 2 is not a character boundary, and the Rust
slice `&content[start..end]` panics — modelled by `parse_js` returning
`none` — contradicting the claimed totality (asserted by the fuzz target). -/
theorem c10_parse_js_panics :
    parse_js c10content none = none ∧
    find_http_method_near c10content 102 = none ∧
    charIdxOfByte c10content 2 = none := by
  decide

end Endpointo
